import Mathlib

/-!
Shallow embedding of the Q2 time-tracking core (src/app): the break data
model (`app/database/models.py`), the overlap detector and work-hour
calculator (`app/services/time_calculator.py`), the session merger
(`app/services/session_manager.py`) and the break-recording endpoint
(`app/routers/tracking.py`).

Timestamps are modelled as integer seconds of a naive UTC timeline
(`Int`); hours are exact rationals (`ℚ`) in place of Python floats —
every quantity the theorems touch is dyadic, so the two agree.
-/

namespace TimeTrack

/-- `BreakType` enumeration from `app/database/models.py`. -/
inductive BreakType where
  | break1
  | break2
  | bio
deriving DecidableEq, Repr

/-- `BreakEntry` model from `app/database/models.py` (timezone label omitted:
no theorem touches it). -/
structure BreakEntry where
  break_type : BreakType
  start_time : Option Int := none
  end_time : Option Int := none
  duration_minutes : Option Int := none
deriving DecidableEq, Repr

/-- Python `int(x)` on an exact ratio of seconds to minutes: truncation
toward zero, `Int.tdiv`. -/
def secondsToMinutes (seconds : Int) : Int := Int.tdiv seconds 60

/-- Constructing a `BreakEntry` through pydantic: `validate_end_time` rejects
`end ≤ start` when both are present; `calculate_duration` keeps an explicit
duration and otherwise derives `int((end - start).total_seconds() / 60)` when
both timestamps are present. -/
def mkBreakEntry (bt : BreakType) (s e d : Option Int) : Option BreakEntry :=
  match s, e with
  | some sv, some ev =>
      if ev ≤ sv then none
      else some { break_type := bt, start_time := s, end_time := e,
                  duration_minutes := some (d.getD (secondsToMinutes (ev - sv))) }
  | _, _ => some { break_type := bt, start_time := s, end_time := e,
                   duration_minutes := d }

/-- `TimeEntry` model from `app/database/models.py`, restricted to the fields
the core computations read. -/
structure TimeEntry where
  emp_id : String
  login_time : Option Int := none
  logout_time : Option Int := none
  breaks : List BreakEntry := []
deriving DecidableEq, Repr

def STANDARD_WORK_HOURS : Int := 9
def MANDATORY_BREAK_MINUTES : Int := 30
def MAX_BIO_BREAK_MINUTES : Int := 30
def DEFAULT_LOGOUT_HOUR : Int := 18

/-- Midnight of the calendar day holding timestamp `t` (naive UTC). -/
def dayStart (t : Int) : Int := t - t % 86400

/-- `login_time.replace(hour=18, minute=0, second=0)`: same calendar day at
the fallback hour. -/
def defaultLogout (login : Int) : Int :=
  dayStart login + DEFAULT_LOGOUT_HOUR * 3600

/-- Python `min` on two timestamps. -/
def minI (a b : Int) : Int := if a ≤ b then a else b

/-- Python `max` on two timestamps. -/
def maxI (a b : Int) : Int := if a ≤ b then b else a

/-- Python `min` on two floats (modelled as rationals). -/
def minQ (a b : ℚ) : ℚ := if a ≤ b then a else b

/-- Python `max` on two floats (modelled as rationals). -/
def maxQ (a b : ℚ) : ℚ := if a ≤ b then b else a

theorem minI_eq_min (a b : Int) : minI a b = min a b := (min_def a b).symm

theorem maxI_eq_max (a b : Int) : maxI a b = max a b := (max_def a b).symm

theorem minQ_eq_min (a b : ℚ) : minQ a b = min a b := (min_def a b).symm

theorem maxQ_eq_max (a b : ℚ) : maxQ a b = max a b := (max_def a b).symm

/-- One overlap report produced by `check_overlapping_breaks`: the Python
code renders it as the string
`f"{br1.break_type}({idx1+1}) overlaps {br2.break_type}({idx2+1}) for {ov_min:.0f} min"`;
we keep the interpolated fields structured. -/
structure OverlapMsg where
  kind1 : BreakType
  pos1 : Nat
  kind2 : BreakType
  pos2 : Nat
  minutes : ℚ
deriving DecidableEq, Repr

/-- A timed break together with its 0-based position in the original list:
one element of `[(i, b) for i, b in enumerate(breaks) if b.start_time and b.end_time]`. -/
structure TimedBreak where
  idx : Nat
  s : Int
  e : Int
  kind : BreakType
deriving DecidableEq, Repr

/-- `enumerate` plus the timed filter of `check_overlapping_breaks`. -/
def timedFrom : Nat → List BreakEntry → List TimedBreak
  | _, [] => []
  | i, b :: rest =>
      match b.start_time, b.end_time with
      | some sv, some ev => ⟨i, sv, ev, b.break_type⟩ :: timedFrom (i + 1) rest
      | _, _ => timedFrom (i + 1) rest

def timedBreaks (bs : List BreakEntry) : List TimedBreak := timedFrom 0 bs

/-- The doubly nested pair loop of `check_overlapping_breaks`: each earlier
timed break against every later one, skipping disjoint pairs, else reporting
the overlap width in minutes. -/
def pairMsgs : List TimedBreak → List OverlapMsg
  | [] => []
  | x :: xs =>
      (xs.filterMap fun y =>
        if x.e ≤ y.s ∨ y.e ≤ x.s then none
        else some ⟨x.kind, x.idx + 1, y.kind, y.idx + 1,
                   ((minI x.e y.e - maxI x.s y.s : Int) : ℚ) / 60⟩)
      ++ pairMsgs xs

/-- `TimeCalculator.check_overlapping_breaks` (first component is the boolean
`has overlaps`, second the message list, empty standing for `None`). -/
def check_overlapping_breaks (bs : List BreakEntry) : Bool × List OverlapMsg :=
  let msgs := pairMsgs (timedBreaks bs)
  (!msgs.isEmpty, msgs)

/-- Accumulator of the per-break loop in `calculate_work_hours`. -/
structure BreakAccum where
  total : Int := 0
  b1 : Int := 0
  b2 : Int := 0
  bioSum : Int := 0
deriving DecidableEq, Repr

/-- One step of the loop: `dur = br.duration_minutes or 0`, added to the
running total; break1/break2 keep the last value seen, bio minutes sum. -/
def accumBreak (a : BreakAccum) (br : BreakEntry) : BreakAccum :=
  let dur := br.duration_minutes.getD 0
  match br.break_type with
  | BreakType.break1 => { a with total := a.total + dur, b1 := dur }
  | BreakType.break2 => { a with total := a.total + dur, b2 := dur }
  | BreakType.bio => { a with total := a.total + dur, bioSum := a.bioSum + dur }

def accumBreaks (bs : List BreakEntry) : BreakAccum :=
  bs.foldl accumBreak {}

/-- The inner `_adj` of the full-day branch, returning the signed amount it
adds to `bonus_min`: excess over the mandatory allotment is negative, unused
positive allotment is credited back, otherwise zero. -/
def adjSigned (actual : Int) : Int :=
  if actual > MANDATORY_BREAK_MINUTES then -(actual - MANDATORY_BREAK_MINUTES)
  else if 0 < actual ∧ actual < MANDATORY_BREAK_MINUTES then
    MANDATORY_BREAK_MINUTES - actual
  else 0

/-- Per-kind excess over an allotment, as used by both branches for the bio
cap and by the partial-day branch for break1/break2. -/
def excessOver (cap actual : Int) : Int :=
  if actual > cap then actual - cap else 0

/-- The slice of the `details` dict that the verified properties read. -/
structure CalcDetails where
  error : Option String := none
  total_logged_hours : ℚ := 0
  is_full_workday : Bool := false
  has_overlaps : Bool := false
  overlap_details : List OverlapMsg := []
  total_break_minutes : Int := 0
  final_work_hours : ℚ := 0
deriving DecidableEq, Repr

/-- `TimeCalculator.calculate_work_hours`: returns
(final hours, details, scenario). -/
def calculate_work_hours (t : TimeEntry) : ℚ × CalcDetails × String :=
  match t.login_time with
  | none => (0, { error := some "No login time recorded" }, "Absent")
  | some login =>
    let logout := t.logout_time.getD (defaultLogout login)
    let scenario0 := if t.logout_time.isSome then "Calculation"
                     else "Emp forgot to logout"
    let total_logged_hours : ℚ := ((logout - login : Int) : ℚ) / 3600
    let is_full_day : Bool :=
      decide (|total_logged_hours - (STANDARD_WORK_HOURS : ℚ)| < 1 / 2)
    let ov := check_overlapping_breaks t.breaks
    let a := accumBreaks t.breaks
    let bonus_min := adjSigned a.b1 + adjSigned a.b2
    let full_penalty := excessOver MAX_BIO_BREAK_MINUTES a.bioSum
    let partial_penalty :=
      excessOver MANDATORY_BREAK_MINUTES a.b1 +
      excessOver MANDATORY_BREAK_MINUTES a.b2 +
      excessOver MAX_BIO_BREAK_MINUTES a.bioSum
    let final_full : ℚ :=
      maxQ 0 (minQ (STANDARD_WORK_HOURS : ℚ)
        ((STANDARD_WORK_HOURS : ℚ) - (full_penalty : ℚ) / 60 + (bonus_min : ℚ) / 60))
    let productive : ℚ := total_logged_hours - (a.total : ℚ) / 60
    let final_partial : ℚ := maxQ 0 (productive - (partial_penalty : ℚ) / 60)
    let final_hours := if is_full_day then final_full else final_partial
    let penalty_min := if is_full_day then full_penalty else partial_penalty
    let scenario1 := if penalty_min ≠ 0 then "Emp exceeds break" else scenario0
    let scenario2 := if ov.1 then scenario1 ++ " with overlapping breaks"
                     else scenario1
    (final_hours,
     { total_logged_hours := total_logged_hours,
       is_full_workday := is_full_day,
       has_overlaps := ov.1,
       overlap_details := ov.2,
       total_break_minutes := a.total,
       final_work_hours := final_hours },
     scenario2)

/-- The break-merge scan of `SessionManager.create_or_update_session` for one
non-bio break: replace the first entry of the same kind in place, append when
none exists. -/
def replaceFirst : List BreakEntry → BreakEntry → List BreakEntry
  | [], nb => [nb]
  | b :: rest, nb =>
      if b.break_type = nb.break_type then nb :: rest
      else b :: replaceFirst rest nb

/-- Folding one new break into an existing session's break list
(`create_or_update_session`, the `key == "breaks"` branch): bio breaks are
always appended, break1/break2 replace-or-append. -/
def mergeBreak (bs : List BreakEntry) (nb : BreakEntry) : List BreakEntry :=
  if nb.break_type = BreakType.bio then bs ++ [nb]
  else replaceFirst bs nb

/-- Merging a break event into an existing session. -/
def mergeSessionBreak (s : TimeEntry) (nb : BreakEntry) : TimeEntry :=
  { s with breaks := mergeBreak s.breaks nb }

/-- Outcome of the `POST /break` endpoint (`record_break` in
`app/routers/tracking.py`), paired with the session as it stands after the
call. The strings are the endpoint's literal `message` fields. -/
inductive BreakOutcome where
  | badRequest (message : String)
  | overlapReply (message : String) (warning : List OverlapMsg)
  | recorded (message : String)
deriving DecidableEq, Repr

/-- The endpoint's `auto duration` step: derive a missing duration from the
two timestamps. -/
def autoDuration (s e d : Option Int) : Option Int :=
  match s, e, d with
  | some sv, some ev, none => some (secondsToMinutes (ev - sv))
  | _, _, _ => d

/-- `record_break`: derive a missing duration from the timestamps, construct
the `BreakEntry` (pydantic validation may fail: `none` result), reject a
duplicate mandatory break with HTTP 400, answer early with a warning when the
extended list has an overlap, otherwise merge and persist the break. -/
def record_break (session : TimeEntry) (bt : BreakType)
    (s e d : Option Int) : Option (BreakOutcome × TimeEntry) :=
  match mkBreakEntry bt s e (autoDuration s e d) with
  | none => none
  | some be =>
    if bt ≠ BreakType.bio ∧ bt ∈ session.breaks.map (·.break_type) then
      some (BreakOutcome.badRequest "already recorded for today", session)
    else
      let test := session.breaks ++ [be]
      let ov := check_overlapping_breaks test
      if ov.1 then
        some (BreakOutcome.overlapReply "Break recorded with overlap warning" ov.2,
              session)
      else
        some (BreakOutcome.recorded "Break recorded successfully",
              mergeSessionBreak session be)

/-! ## Sessions used as concrete instances -/

/-- Full-day session, login 09:00, logout 18:00, with duration-only breaks
Break1 = 35 min, Break2 = 40 min, Bio = 30 min. -/
def fullDayExcessSession : TimeEntry :=
  { emp_id := "e1", login_time := some (9 * 3600), logout_time := some (18 * 3600),
    breaks := [ { break_type := BreakType.break1, duration_minutes := some 35 },
                { break_type := BreakType.break2, duration_minutes := some 40 },
                { break_type := BreakType.bio, duration_minutes := some 30 } ] }

/-- Session with one timed Break1 from 10:00 to 10:30. -/
def timedBreakSession : TimeEntry :=
  { emp_id := "e2", login_time := some (9 * 3600),
    breaks := [ { break_type := BreakType.break1, start_time := some 36000,
                  end_time := some 37800, duration_minutes := some 30 } ] }

/-! ## Theorems -/

/-- C5: a session with no login timestamp yields exactly 0.0 hours, the
scenario "Absent" and an explanatory error detail, with no contribution from
breaks or logout: the result is this fixed triple. -/
theorem no_login_absent (t : TimeEntry) (h : t.login_time = none) :
    calculate_work_hours t =
      (0, { error := some "No login time recorded" }, "Absent") := by
  unfold calculate_work_hours
  rw [h]

/-- Session with logout and a break but no login. -/
def noLoginSession : TimeEntry :=
  { emp_id := "e0", logout_time := some 3600,
    breaks := [ { break_type := BreakType.bio, duration_minutes := some 10 } ] }

theorem no_login_absent_witness :
    calculate_work_hours noLoginSession =
      (0, { error := some "No login time recorded" }, "Absent") :=
  no_login_absent noLoginSession rfl

/-- With both timestamps and end ≤ start, construction returns `none`,
and conversely. -/
theorem mkBreakEntry_none_iff (bt : BreakType) (s e : Int) (d : Option Int) :
    mkBreakEntry bt (some s) (some e) d = none ↔ e ≤ s := by
  unfold mkBreakEntry
  split
  · simp_all
  · simp_all

/-- With both timestamps and start < end, construction succeeds with the
stored or derived duration. -/
theorem mkBreakEntry_pos (bt : BreakType) (s e : Int) (d : Option Int)
    (hlt : s < e) :
    mkBreakEntry bt (some s) (some e) d =
      some { break_type := bt, start_time := some s, end_time := some e,
             duration_minutes := some (d.getD (secondsToMinutes (e - s))) } := by
  simp [mkBreakEntry, not_le.mpr hlt]

/-- C8: with both timestamps present, `BreakEntry` construction fails exactly
when end ≤ start, and with end strictly after start it succeeds (producing
the entry with its stored or derived duration). -/
theorem break_entry_validation (bt : BreakType) (s e : Int) (d : Option Int) :
    (mkBreakEntry bt (some s) (some e) d = none ↔ e ≤ s) ∧
    (s < e → mkBreakEntry bt (some s) (some e) d =
       some { break_type := bt, start_time := some s, end_time := some e,
              duration_minutes := some (d.getD (secondsToMinutes (e - s))) }) :=
  ⟨mkBreakEntry_none_iff bt s e d, mkBreakEntry_pos bt s e d⟩

theorem break_entry_validation_witness :
    (mkBreakEntry BreakType.break1 (some 100) (some 50) none = none ↔ (50 : Int) ≤ 100) ∧
    mkBreakEntry BreakType.break1 (some 0) (some 600) none =
      some { break_type := BreakType.break1, start_time := some 0,
             end_time := some 600, duration_minutes := some 10 } :=
  ⟨(break_entry_validation BreakType.break1 100 50 none).1,
   (break_entry_validation BreakType.break1 0 600 none).2 (by decide)⟩

/-- C7 counterexample: a break of 110 seconds stores a derived duration of
1 minute (Python `int` truncation), while rounding to the nearest minute
would give 2. -/
theorem derived_duration_not_rounded :
    (mkBreakEntry BreakType.bio (some 0) (some 110) none).map
        (fun b => b.duration_minutes) = some (some 1) ∧
    round ((110 : ℚ) / 60) = 2 ∧ (1 : Int) ≠ 2 := by
  refine ⟨rfl, ?_, by decide⟩
  norm_num [round_eq]

/-- C7 amended: with both timestamps present, no explicit duration and
end strictly after start, the stored duration is the number of seconds
divided by 60 rounded *down* (floor, equal to truncation for the positive
span), not to the nearest minute. -/
theorem derived_duration_floors (bt : BreakType) (s e : Int) (h : s < e) :
    (mkBreakEntry bt (some s) (some e) none).map (fun b => b.duration_minutes) =
      some (some ⌊((e - s : Int) : ℚ) / 60⌋) := by
  rw [mkBreakEntry_pos bt s e none h]
  have h60 : ((60 : ℚ)) = ((60 : ℕ) : ℚ) := by norm_num
  simp only [Option.map, Option.getD, secondsToMinutes]
  rw [Int.tdiv_eq_ediv (by omega) (by decide), h60,
      Rat.floor_intCast_div_natCast]
  norm_num

theorem derived_duration_floors_witness :
    (0 : Int) < 110 ∧
    (mkBreakEntry BreakType.bio (some 0) (some 110) none).map
        (fun b => b.duration_minutes) = some (some ⌊((110 - 0 : Int) : ℚ) / 60⌋) :=
  ⟨by decide, derived_duration_floors BreakType.bio 0 110 (by decide)⟩

/-- C2 (code-bug evidence): when the new break overlaps an existing timed
break, `record_break` replies "Break recorded with overlap warning" yet
returns with the session unchanged — the merge step is skipped, so the break
is not recorded.  The input: session with a timed Break1 10:00–10:30, new
bio break 10:15–10:45. -/
theorem overlap_reply_drops_break :
    record_break timedBreakSession BreakType.bio (some 36900) (some 38700) none =
      some (BreakOutcome.overlapReply "Break recorded with overlap warning"
              [{ kind1 := BreakType.break1, pos1 := 1, kind2 := BreakType.bio,
                 pos2 := 2, minutes := 15 }],
            timedBreakSession) ∧
    timedBreakSession.breaks.length = 1 := by
  constructor
  · norm_num [record_break, autoDuration, mkBreakEntry, check_overlapping_breaks,
      timedBreaks, timedFrom, pairMsgs, minI, maxI, secondsToMinutes,
      timedBreakSession, mergeSessionBreak, mergeBreak, List.filterMap_cons,
      List.filterMap_nil, List.isEmpty]
  · rfl

/-- C1 counterexample: in the full-day session 09:00–18:00 with Break1 = 35,
Break2 = 40 and Bio = 30 minutes, the final hours are 8.75 as claimed but the
scenario is "Calculation", not "Emp exceeds break": the mandatory-break
excess flows into `bonus_min`, not `penalty_min`, so the label is untouched. -/
theorem full_day_excess_scenario_refuted :
    (calculate_work_hours fullDayExcessSession).1 = 35 / 4 ∧
    (calculate_work_hours fullDayExcessSession).2.2 = "Calculation" ∧
    "Calculation" ≠ "Emp exceeds break" := by
  refine ⟨?_, ?_, by decide⟩ <;>
    norm_num [calculate_work_hours, fullDayExcessSession, defaultLogout, dayStart,
      STANDARD_WORK_HOURS, MANDATORY_BREAK_MINUTES, MAX_BIO_BREAK_MINUTES,
      DEFAULT_LOGOUT_HOUR, check_overlapping_breaks, timedBreaks, timedFrom,
      pairMsgs, accumBreaks, accumBreak, adjSigned, excessOver, maxQ, minQ]

/-- C1 amended: for every full-day session (login and logout present, logged
time within the half-hour band) whose accumulated breaks give
Break1 = 35, Break2 = 40 and total Bio = 30 minutes and whose timed breaks do
not overlap, `calculate_work_hours` returns final hours 8.75, and the
scenario keeps the logout-status label "Calculation": the 15 excess minutes
are applied as a negative bonus, not as penalty minutes, so they do not
overwrite the label. -/
theorem full_day_excess_breaks_hours (t : TimeEntry) (l o : Int)
    (hl : t.login_time = some l) (ho : t.logout_time = some o)
    (hfull : |((o - l : Int) : ℚ) / 3600 - (STANDARD_WORK_HOURS : ℚ)| < 1 / 2)
    (hb1 : (accumBreaks t.breaks).b1 = 35)
    (hb2 : (accumBreaks t.breaks).b2 = 40)
    (hbio : (accumBreaks t.breaks).bioSum = 30)
    (hov : pairMsgs (timedBreaks t.breaks) = []) :
    (calculate_work_hours t).1 = 35 / 4 ∧
    (calculate_work_hours t).2.2 = "Calculation" := by
  simp only [calculate_work_hours, hl, ho, Option.getD_some, Option.isSome_some,
    check_overlapping_breaks, hov, hb1, hb2, hbio]
  rw [decide_eq_true hfull]
  norm_num [adjSigned, excessOver, maxQ, minQ, MANDATORY_BREAK_MINUTES,
    MAX_BIO_BREAK_MINUTES, STANDARD_WORK_HOURS]

theorem full_day_excess_breaks_hours_witness :
    (calculate_work_hours fullDayExcessSession).2.2 = "Calculation" :=
  (full_day_excess_breaks_hours fullDayExcessSession 32400 64800
    rfl rfl (by norm_num [STANDARD_WORK_HOURS]) (by decide) (by decide)
    (by decide) (by decide)).2

/-- C9: at the public break-recording endpoint, a Break1/Break2 whose kind is
already present in the day's session is answered with the HTTP 400 error,
and the session is returned unchanged — the Merger is never invoked, so its
replace rule is unreachable through this interface. -/
theorem duplicate_mandatory_break_rejected (session : TimeEntry) (bt : BreakType)
    (s e d : Option Int) (be : BreakEntry)
    (hbt : bt ≠ BreakType.bio)
    (hmem : bt ∈ session.breaks.map (fun b => b.break_type))
    (hmk : mkBreakEntry bt s e (autoDuration s e d) = some be) :
    record_break session bt s e d =
      some (BreakOutcome.badRequest "already recorded for today", session) := by
  unfold record_break
  rw [hmk]
  simp [hbt, hmem]

theorem duplicate_mandatory_break_rejected_witness :
    record_break timedBreakSession BreakType.break1 none none (some 20) =
      some (BreakOutcome.badRequest "already recorded for today",
            timedBreakSession) :=
  duplicate_mandatory_break_rejected timedBreakSession BreakType.break1
    none none (some 20)
    { break_type := BreakType.break1, duration_minutes := some 20 }
    (by decide) (by decide) (by decide)

theorem accumBreak_total (a : BreakAccum) (br : BreakEntry) :
    (accumBreak a br).total = a.total + br.duration_minutes.getD 0 := by
  rcases br with ⟨bt, s, e, d⟩
  cases bt <;> rfl

theorem foldl_accumBreak_total_nonneg (bs : List BreakEntry) :
    ∀ a : BreakAccum, (∀ b ∈ bs, 0 ≤ b.duration_minutes.getD 0) → 0 ≤ a.total →
      0 ≤ (bs.foldl accumBreak a).total := by
  induction bs with
  | nil => intro a _ ha; simpa using ha
  | cons b rest ih =>
    intro a h ha
    simp only [List.foldl_cons]
    refine ih _ (fun x hx => h x (List.mem_cons_of_mem _ hx)) ?_
    rw [accumBreak_total]
    have := h b (List.mem_cons_self _ _)
    omega

theorem accumBreaks_total_nonneg (bs : List BreakEntry)
    (h : ∀ b ∈ bs, 0 ≤ b.duration_minutes.getD 0) :
    0 ≤ (accumBreaks bs).total :=
  foldl_accumBreak_total_nonneg bs {} h le_rfl

theorem excessOver_nonneg (cap x : Int) : 0 ≤ excessOver cap x := by
  unfold excessOver
  split <;> omega

/-- Session logged in at 19:00 with no logout and one bio break carrying an
explicit (degenerate) duration of −120 minutes. -/
def lateLoginSession : TimeEntry :=
  { emp_id := "e3", login_time := some 68400, logout_time := none,
    breaks := [ { break_type := BreakType.bio, duration_minutes := some (-120) } ] }

/-- C10 counterexample: login at 19:00 (time of day past 18:00), logout
absent, but a break with the explicit duration −120 minutes makes the
partial-day `productive` term positive: the final hours are 1, not 0. -/
theorem after_hours_login_zero_refuted :
    (18 * 3600 ≤ (68400 : Int) % 86400) ∧
    lateLoginSession.login_time = some 68400 ∧
    lateLoginSession.logout_time = none ∧
    (calculate_work_hours lateLoginSession).1 = 1 ∧ (1 : ℚ) ≠ 0 := by
  refine ⟨by decide, rfl, rfl, ?_, by norm_num⟩
  norm_num [calculate_work_hours, lateLoginSession, defaultLogout, dayStart,
    STANDARD_WORK_HOURS, MANDATORY_BREAK_MINUTES, MAX_BIO_BREAK_MINUTES,
    DEFAULT_LOGOUT_HOUR, check_overlapping_breaks, timedBreaks, timedFrom,
    pairMsgs, accumBreaks, accumBreak, adjSigned, excessOver, maxQ, minQ]

/-- C10 amended: for every session with login present, logout absent, the
login's time of day at or after 18:00 and every break duration nonnegative
(as every timestamp-derived duration is), the defaulted logout is not after
login, so the logged total is ≤ 0, the day is classified partial, and the
returned final hours are exactly 0 — never negative and never an error.
(The unamended claim fails only for a degenerate explicit negative
duration.) -/
theorem after_hours_login_zero (t : TimeEntry) (l : Int)
    (hl : t.login_time = some l) (ho : t.logout_time = none)
    (htod : 18 * 3600 ≤ l % 86400)
    (hdur : ∀ b ∈ t.breaks, 0 ≤ b.duration_minutes.getD 0) :
    (calculate_work_hours t).2.1.total_logged_hours ≤ 0 ∧
    (calculate_work_hours t).2.1.is_full_workday = false ∧
    (calculate_work_hours t).1 = 0 := by
  have hlogout : defaultLogout l - l ≤ 0 := by
    unfold defaultLogout dayStart DEFAULT_LOGOUT_HOUR
    omega
  have hsub : ((defaultLogout l : ℚ) - (l : ℚ)) ≤ 0 := by exact_mod_cast hlogout
  have hT2 : ((defaultLogout l : ℚ) - (l : ℚ)) / 3600 ≤ 0 :=
    div_nonpos_of_nonpos_of_nonneg hsub (by norm_num)
  have hT : ((defaultLogout l - l : Int) : ℚ) / 3600 ≤ 0 := by
    push_cast
    exact hT2
  have hnotfull :
      ¬(|((defaultLogout l - l : Int) : ℚ) / 3600 - (STANDARD_WORK_HOURS : ℚ)| <
        1 / 2) := by
    rw [abs_lt, STANDARD_WORK_HOURS]
    push_cast
    intro hconj
    have := hconj.1
    linarith [hT2]
  have htot : 0 ≤ (accumBreaks t.breaks).total := accumBreaks_total_nonneg _ hdur
  have hpen : 0 ≤ excessOver MANDATORY_BREAK_MINUTES (accumBreaks t.breaks).b1 +
      excessOver MANDATORY_BREAK_MINUTES (accumBreaks t.breaks).b2 +
      excessOver MAX_BIO_BREAK_MINUTES (accumBreaks t.breaks).bioSum := by
    have h1 := excessOver_nonneg MANDATORY_BREAK_MINUTES (accumBreaks t.breaks).b1
    have h2 := excessOver_nonneg MANDATORY_BREAK_MINUTES (accumBreaks t.breaks).b2
    have h3 := excessOver_nonneg MAX_BIO_BREAK_MINUTES (accumBreaks t.breaks).bioSum
    omega
  have htotQ : (0 : ℚ) ≤ ((accumBreaks t.breaks).total : ℚ) := by exact_mod_cast htot
  have hpenQ : (0 : ℚ) ≤
      ((excessOver MANDATORY_BREAK_MINUTES (accumBreaks t.breaks).b1 +
        excessOver MANDATORY_BREAK_MINUTES (accumBreaks t.breaks).b2 +
        excessOver MAX_BIO_BREAK_MINUTES (accumBreaks t.breaks).bioSum : Int) : ℚ) := by
    exact_mod_cast hpen
  simp only [calculate_work_hours, hl, ho, Option.getD_none, Option.isSome_none,
    Bool.false_eq_true, if_false, decide_eq_false hnotfull]
  refine ⟨hT, by simp, ?_⟩
  rw [maxQ_eq_max]
  apply max_eq_left
  linarith [hT, htotQ, hpenQ]

/-- Session logged in at 19:30 with no logout and one ordinary bio break. -/
def lateLoginCleanSession : TimeEntry :=
  { emp_id := "e4", login_time := some 70200, logout_time := none,
    breaks := [ { break_type := BreakType.bio, duration_minutes := some 10 } ] }

theorem after_hours_login_zero_witness :
    (calculate_work_hours lateLoginCleanSession).2.1.total_logged_hours ≤ 0 ∧
    (calculate_work_hours lateLoginCleanSession).2.1.is_full_workday = false ∧
    (calculate_work_hours lateLoginCleanSession).1 = 0 :=
  after_hours_login_zero lateLoginCleanSession 70200 rfl rfl (by decide)
    (by decide)

/-- C4: with login present, the session is classified full workday exactly
when the logged total is within the half-hour band around 9 hours, and in
that case the final hours are clamped into [0, STANDARD_WORK_HOURS] no matter
how large the bonus adjustments are. -/
theorem full_day_band_and_bound (t : TimeEntry) (l : Int)
    (hl : t.login_time = some l) :
    ((calculate_work_hours t).2.1.is_full_workday = true ↔
      |((t.logout_time.getD (defaultLogout l) - l : Int) : ℚ) / 3600 -
        (STANDARD_WORK_HOURS : ℚ)| < 1 / 2) ∧
    (|((t.logout_time.getD (defaultLogout l) - l : Int) : ℚ) / 3600 -
        (STANDARD_WORK_HOURS : ℚ)| < 1 / 2 →
      0 ≤ (calculate_work_hours t).1 ∧
      (calculate_work_hours t).1 ≤ (STANDARD_WORK_HOURS : ℚ)) := by
  constructor
  · simp only [calculate_work_hours, hl]
    exact ⟨of_decide_eq_true, fun h => decide_eq_true h⟩
  · intro hband
    simp only [calculate_work_hours, hl, decide_eq_true hband, if_true]
    constructor
    · rw [maxQ_eq_max]
      exact le_max_left 0 _
    · rw [maxQ_eq_max, minQ_eq_min]
      exact max_le (by norm_num [STANDARD_WORK_HOURS]) (min_le_left _ _)

/-- Full-day session: login 09:00, logout 17:45 (8.75 h logged, inside the
band), Break1 of 20 minutes (earning a +10 bonus past the 9-hour base). -/
def fullDayBonusSession : TimeEntry :=
  { emp_id := "e5", login_time := some 32400, logout_time := some 63900,
    breaks := [ { break_type := BreakType.break1, duration_minutes := some 20 } ] }

theorem full_day_band_and_bound_witness :
    ((calculate_work_hours fullDayBonusSession).2.1.is_full_workday = true ↔
      |((fullDayBonusSession.logout_time.getD (defaultLogout 32400) -
          32400 : Int) : ℚ) / 3600 - (STANDARD_WORK_HOURS : ℚ)| < 1 / 2) ∧
    (0 ≤ (calculate_work_hours fullDayBonusSession).1 ∧
      (calculate_work_hours fullDayBonusSession).1 ≤ (STANDARD_WORK_HOURS : ℚ)) :=
  ⟨(full_day_band_and_bound fullDayBonusSession 32400 rfl).1,
   (full_day_band_and_bound fullDayBonusSession 32400 rfl).2
     (by rw [abs_lt]; norm_num [fullDayBonusSession, STANDARD_WORK_HOURS])⟩

theorem replaceFirst_not_mem (bs : List BreakEntry) (nb : BreakEntry)
    (h : nb.break_type ∉ bs.map (fun b => b.break_type)) :
    replaceFirst bs nb = bs ++ [nb] := by
  induction bs with
  | nil => rfl
  | cons b rest ih =>
    simp only [List.map_cons, List.mem_cons] at h
    push_neg at h
    unfold replaceFirst
    rw [if_neg (fun he => h.1 he.symm), ih h.2, List.cons_append]

theorem replaceFirst_mem (bs : List BreakEntry) (nb : BreakEntry)
    (h : nb.break_type ∈ bs.map (fun b => b.break_type)) :
    replaceFirst bs nb =
      bs.set (bs.findIdx (fun b => b.break_type == nb.break_type)) nb := by
  induction bs with
  | nil => simp at h
  | cons b rest ih =>
    by_cases hb : b.break_type = nb.break_type
    · unfold replaceFirst
      rw [if_pos hb, List.findIdx_cons]
      simp [hb]
    · unfold replaceFirst
      rw [if_neg hb]
      have h' : nb.break_type ∈ rest.map (fun b => b.break_type) := by
        simp only [List.map_cons, List.mem_cons] at h
        rcases h with h | h
        · exact absurd h.symm hb
        · exact h
      have hbeq : (b.break_type == nb.break_type) = false :=
        beq_eq_false_iff_ne.mpr hb
      rw [ih h', List.findIdx_cons, hbeq]
      simp

theorem countP_replaceFirst (bs : List BreakEntry) (nb : BreakEntry)
    (k : BreakType) :
    (replaceFirst bs nb).countP (fun b => b.break_type == k) =
      if nb.break_type ∈ bs.map (fun b => b.break_type) then
        bs.countP (fun b => b.break_type == k)
      else
        bs.countP (fun b => b.break_type == k) +
          (if nb.break_type = k then 1 else 0) := by
  induction bs with
  | nil =>
    simp only [replaceFirst, List.map_nil, List.not_mem_nil, if_false,
      List.countP_nil, List.countP_cons, Nat.zero_add]
    by_cases hk : nb.break_type = k <;> simp [hk]
  | cons b rest ih =>
    by_cases hb : b.break_type = nb.break_type
    · unfold replaceFirst
      rw [if_pos hb]
      have hmem : nb.break_type ∈ (b :: rest).map (fun b => b.break_type) := by
        simp [hb.symm]
      rw [if_pos hmem]
      simp only [List.countP_cons, hb]
    · unfold replaceFirst
      rw [if_neg hb]
      have hmem : (nb.break_type ∈ (b :: rest).map (fun b => b.break_type)) ↔
          (nb.break_type ∈ rest.map (fun b => b.break_type)) := by
        simp only [List.map_cons, List.mem_cons]
        constructor
        · rintro (h | h)
          · exact absurd h.symm hb
          · exact h
        · exact Or.inr
      by_cases hr : nb.break_type ∈ rest.map (fun b => b.break_type)
      · rw [if_pos (hmem.mpr hr)]
        simp only [List.countP_cons, ih, if_pos hr]
      · rw [if_neg (fun hh => hr (hmem.mp hh))]
        simp only [List.countP_cons, ih, if_neg hr]
        omega

theorem countP_eq_zero_of_not_mem (bs : List BreakEntry) (k : BreakType)
    (h : k ∉ bs.map (fun b => b.break_type)) :
    bs.countP (fun b => b.break_type == k) = 0 := by
  rw [List.countP_eq_zero]
  intro b hb
  simp only [beq_iff_eq]
  intro he
  exact h (by simp only [List.mem_map]; exact ⟨b, hb, he⟩)

/-- C3: the Session Merger's single-break fold appends Bio breaks, replaces
the first same-kind entry for Break1/Break2 (appending when absent), keeps
"at most one entry" per mandatory kind, and grows the Bio count by exactly
one per Bio merge. -/
theorem merge_break_rules (bs : List BreakEntry) (nb : BreakEntry) :
    (nb.break_type = BreakType.bio → mergeBreak bs nb = bs ++ [nb]) ∧
    (nb.break_type ≠ BreakType.bio →
      nb.break_type ∉ bs.map (fun b => b.break_type) →
      mergeBreak bs nb = bs ++ [nb]) ∧
    (nb.break_type ≠ BreakType.bio →
      nb.break_type ∈ bs.map (fun b => b.break_type) →
      mergeBreak bs nb =
        bs.set (bs.findIdx (fun b => b.break_type == nb.break_type)) nb) ∧
    (∀ k : BreakType, k ≠ BreakType.bio →
      bs.countP (fun b => b.break_type == k) ≤ 1 →
      (mergeBreak bs nb).countP (fun b => b.break_type == k) ≤ 1) ∧
    ((mergeBreak bs nb).countP (fun b => b.break_type == BreakType.bio) =
      bs.countP (fun b => b.break_type == BreakType.bio) +
        (if nb.break_type = BreakType.bio then 1 else 0)) := by
  refine ⟨fun hb => by rw [mergeBreak, if_pos hb], ?_, ?_, ?_, ?_⟩
  · intro hb hmem
    rw [mergeBreak, if_neg hb]
    exact replaceFirst_not_mem bs nb hmem
  · intro hb hmem
    rw [mergeBreak, if_neg hb]
    exact replaceFirst_mem bs nb hmem
  · intro k hk hcount
    by_cases hb : nb.break_type = BreakType.bio
    · rw [mergeBreak, if_pos hb, List.countP_append]
      have hkb : (nb.break_type == k) = false := by
        rw [beq_eq_false_iff_ne, hb]
        exact fun he => hk he.symm
      simp only [List.countP_cons, List.countP_nil, hkb]
      simp only [Bool.false_eq_true, if_false]
      omega
    · rw [mergeBreak, if_neg hb, countP_replaceFirst]
      by_cases hr : nb.break_type ∈ bs.map (fun b => b.break_type)
      · rw [if_pos hr]
        exact hcount
      · rw [if_neg hr]
        by_cases hkk : nb.break_type = k
        · rw [if_pos hkk]
          have h0 : bs.countP (fun b => b.break_type == k) = 0 := by
            apply countP_eq_zero_of_not_mem
            rw [← hkk]
            exact hr
          omega
        · rw [if_neg hkk]
          omega
  · by_cases hb : nb.break_type = BreakType.bio
    · rw [mergeBreak, if_pos hb, List.countP_append, if_pos hb]
      simp [List.countP_cons, hb]
    · rw [mergeBreak, if_neg hb, countP_replaceFirst, if_neg hb]
      by_cases hr : nb.break_type ∈ bs.map (fun b => b.break_type)
      · rw [if_pos hr]
        omega
      · rw [if_neg hr]

/-- Break1 of 30 minutes, as stored in a session. -/
def oldBreak1 : BreakEntry := { break_type := BreakType.break1, duration_minutes := some 30 }

/-- A second, replacing Break1 of 45 minutes. -/
def newBreak1 : BreakEntry := { break_type := BreakType.break1, duration_minutes := some 45 }

/-- A bio break of 5 minutes. -/
def bioBreak5 : BreakEntry := { break_type := BreakType.bio, duration_minutes := some 5 }

theorem merge_break_rules_witness :
    mergeBreak [oldBreak1] newBreak1 =
      [oldBreak1].set
        ([oldBreak1].findIdx (fun b => b.break_type == newBreak1.break_type))
        newBreak1 ∧
    mergeBreak [oldBreak1] bioBreak5 = [oldBreak1] ++ [bioBreak5] :=
  ⟨(merge_break_rules [oldBreak1] newBreak1).2.2.1 (by decide) (by decide),
   (merge_break_rules [oldBreak1] bioBreak5).1 rfl⟩

theorem mem_timedFrom (bs : List BreakEntry) :
    ∀ (n : Nat) (tb : TimedBreak),
      tb ∈ timedFrom n bs ↔
        ∃ (j : Nat) (b : BreakEntry), bs[j]? = some b ∧
          b.start_time = some tb.s ∧ b.end_time = some tb.e ∧
          b.break_type = tb.kind ∧ tb.idx = n + j := by
  induction bs with
  | nil =>
    intro n tb
    simp [timedFrom]
  | cons b rest ih =>
    intro n tb
    rcases hs : b.start_time with _ | sv
    · simp only [timedFrom, hs]
      rw [ih (n + 1) tb]
      constructor
      · rintro ⟨j, b', hj, h1, h2, h3, h4⟩
        exact ⟨j + 1, b', by simpa using hj, h1, h2, h3, by omega⟩
      · rintro ⟨j, b', hj, h1, h2, h3, h4⟩
        match j, hj with
        | 0, hj =>
          rw [List.getElem?_cons_zero, Option.some_inj] at hj
          rw [← hj] at h1
          rw [hs] at h1
          exact absurd h1 (by simp)
        | j' + 1, hj =>
          rw [List.getElem?_cons_succ] at hj
          exact ⟨j', b', hj, h1, h2, h3, by omega⟩
    · rcases he : b.end_time with _ | ev
      · simp only [timedFrom, hs, he]
        rw [ih (n + 1) tb]
        constructor
        · rintro ⟨j, b', hj, h1, h2, h3, h4⟩
          exact ⟨j + 1, b', by simpa using hj, h1, h2, h3, by omega⟩
        · rintro ⟨j, b', hj, h1, h2, h3, h4⟩
          match j, hj with
          | 0, hj =>
            rw [List.getElem?_cons_zero, Option.some_inj] at hj
            rw [← hj] at h2
            rw [he] at h2
            exact absurd h2 (by simp)
          | j' + 1, hj =>
            rw [List.getElem?_cons_succ] at hj
            exact ⟨j', b', hj, h1, h2, h3, by omega⟩
      · simp only [timedFrom, hs, he, List.mem_cons]
        constructor
        · rintro (rfl | htl)
          · exact ⟨0, b, List.getElem?_cons_zero, hs, he, rfl, by simp⟩
          · rcases (ih (n + 1) tb).mp htl with ⟨j, b', hj, h1, h2, h3, h4⟩
            exact ⟨j + 1, b', by simpa using hj, h1, h2, h3, by omega⟩
        · rintro ⟨j, b', hj, h1, h2, h3, h4⟩
          match j, hj with
          | 0, hj =>
            rw [List.getElem?_cons_zero, Option.some_inj] at hj
            subst hj
            left
            rw [hs, Option.some_inj] at h1
            rw [he, Option.some_inj] at h2
            rcases tb with ⟨ti, ts, te, tk⟩
            simp_all
          | j' + 1, hj =>
            rw [List.getElem?_cons_succ] at hj
            right
            exact (ih (n + 1) tb).mpr ⟨j', b', hj, h1, h2, h3, by omega⟩

theorem timedFrom_idx_ge (bs : List BreakEntry) (n : Nat) (tb : TimedBreak)
    (h : tb ∈ timedFrom n bs) : n ≤ tb.idx := by
  rcases (mem_timedFrom bs n tb).mp h with ⟨j, b', _, _, _, _, h4⟩
  omega

theorem timedFrom_pairwise (bs : List BreakEntry) :
    ∀ n : Nat, (timedFrom n bs).Pairwise (fun a b => a.idx < b.idx) := by
  induction bs with
  | nil =>
    intro n
    simp [timedFrom]
  | cons b rest ih =>
    intro n
    rcases hs : b.start_time with _ | sv
    · simp only [timedFrom, hs]
      exact ih (n + 1)
    · rcases he : b.end_time with _ | ev
      · simp only [timedFrom, hs, he]
        exact ih (n + 1)
      · simp only [timedFrom, hs, he]
        refine List.Pairwise.cons ?_ (ih (n + 1))
        intro y hy
        have := timedFrom_idx_ge rest (n + 1) y hy
        simp only []
        omega

theorem mem_pairMsgs (l : List TimedBreak) (m : OverlapMsg) :
    m ∈ pairMsgs l ↔
      ∃ (i j : Nat) (x y : TimedBreak), i < j ∧ l[i]? = some x ∧
        l[j]? = some y ∧ ¬(x.e ≤ y.s ∨ y.e ≤ x.s) ∧
        m = ⟨x.kind, x.idx + 1, y.kind, y.idx + 1,
             ((minI x.e y.e - maxI x.s y.s : Int) : ℚ) / 60⟩ := by
  induction l with
  | nil => simp [pairMsgs]
  | cons x xs ih =>
    simp only [pairMsgs, List.mem_append, List.mem_filterMap, ih]
    constructor
    · rintro (⟨y, hymem, hf⟩ | ⟨i, j, x', y', hij, hi, hj, hnd, rfl⟩)
      · by_cases hd : x.e ≤ y.s ∨ y.e ≤ x.s
        · rw [if_pos hd] at hf
          exact absurd hf (by simp)
        · rw [if_neg hd] at hf
          rcases List.mem_iff_getElem?.mp hymem with ⟨jy, hjy⟩
          refine ⟨0, jy + 1, x, y, by omega, List.getElem?_cons_zero, ?_, hd, ?_⟩
          · rw [List.getElem?_cons_succ]
            exact hjy
          · exact (Option.some_inj.mp hf).symm
      · exact ⟨i + 1, j + 1, x', y', by omega, by simpa using hi,
          by simpa using hj, hnd, rfl⟩
    · rintro ⟨i, j, x', y', hij, hi, hj, hnd, hm⟩
      match i, j, hi, hj with
      | 0, 0, _, _ => omega
      | 0, j' + 1, hi, hj =>
        left
        rw [List.getElem?_cons_zero, Option.some_inj] at hi
        subst hi
        rw [List.getElem?_cons_succ] at hj
        refine ⟨y', List.mem_iff_getElem?.mpr ⟨j', hj⟩, ?_⟩
        rw [if_neg hnd, hm]
      | i' + 1, 0, _, _ => omega
      | i' + 1, j' + 1, hi, hj =>
        right
        rw [List.getElem?_cons_succ] at hi hj
        exact ⟨i', j', x', y', by omega, hi, hj, hnd, hm⟩

theorem pairwise_idx_lt_of_positions (l : List TimedBreak)
    (hp : l.Pairwise (fun a b => a.idx < b.idx)) (i j : Nat) (x y : TimedBreak)
    (hi : l[i]? = some x) (hj : l[j]? = some y) (hij : i < j) :
    x.idx < y.idx := by
  rcases List.getElem?_eq_some.mp hi with ⟨hli, hxi⟩
  rcases List.getElem?_eq_some.mp hj with ⟨hlj, hyj⟩
  have := List.pairwise_iff_getElem.mp hp i j hli hlj hij
  rw [hxi, hyj] at this
  exact this

theorem positions_of_pairwise_idx_lt (l : List TimedBreak)
    (hp : l.Pairwise (fun a b => a.idx < b.idx)) (x y : TimedBreak)
    (hx : x ∈ l) (hy : y ∈ l) (hlt : x.idx < y.idx) :
    ∃ i j : Nat, i < j ∧ l[i]? = some x ∧ l[j]? = some y := by
  rcases List.mem_iff_getElem?.mp hx with ⟨i, hi⟩
  rcases List.mem_iff_getElem?.mp hy with ⟨j, hj⟩
  refine ⟨i, j, ?_, hi, hj⟩
  rcases Nat.lt_trichotomy i j with h | h | h
  · exact h
  · subst h
    rw [hi, Option.some_inj] at hj
    subst hj
    omega
  · have := pairwise_idx_lt_of_positions l hp j i y x hj hi h
    omega

/-- C6: the overlap detector compares only timed intervals (messages exist
exactly for pairs of timed entries, earlier-before-later, that are not
disjoint), reports both break kinds and their 1-based positions in the
original input sequence, and — as every timed entry satisfies start < end —
every reported overlap width min(end_i,end_j) − max(start_i,start_j) is
strictly positive. -/
theorem overlap_detector_correct (bs : List BreakEntry)
    (hv : ∀ b ∈ bs, ∀ sv ev, b.start_time = some sv → b.end_time = some ev →
      sv < ev) :
    (∀ m : OverlapMsg, m ∈ (check_overlapping_breaks bs).2 ↔
      ∃ (i j : Nat) (bi bj : BreakEntry) (si ei sj ej : Int),
        i < j ∧ bs[i]? = some bi ∧ bs[j]? = some bj ∧
        bi.start_time = some si ∧ bi.end_time = some ei ∧
        bj.start_time = some sj ∧ bj.end_time = some ej ∧
        ¬(ei ≤ sj ∨ ej ≤ si) ∧
        m = ⟨bi.break_type, i + 1, bj.break_type, j + 1,
             ((minI ei ej - maxI si sj : Int) : ℚ) / 60⟩) ∧
    (∀ m ∈ (check_overlapping_breaks bs).2, 0 < m.minutes) := by
  have hchar : ∀ m : OverlapMsg, m ∈ (check_overlapping_breaks bs).2 ↔
      ∃ (i j : Nat) (bi bj : BreakEntry) (si ei sj ej : Int),
        i < j ∧ bs[i]? = some bi ∧ bs[j]? = some bj ∧
        bi.start_time = some si ∧ bi.end_time = some ei ∧
        bj.start_time = some sj ∧ bj.end_time = some ej ∧
        ¬(ei ≤ sj ∨ ej ≤ si) ∧
        m = ⟨bi.break_type, i + 1, bj.break_type, j + 1,
             ((minI ei ej - maxI si sj : Int) : ℚ) / 60⟩ := by
    intro m
    show m ∈ pairMsgs (timedFrom 0 bs) ↔ _
    rw [mem_pairMsgs]
    constructor
    · rintro ⟨i', j', x, y, hij, hx', hy', hnd, hm⟩
      have hxl : x ∈ timedFrom 0 bs := List.mem_iff_getElem?.mpr ⟨i', hx'⟩
      have hyl : y ∈ timedFrom 0 bs := List.mem_iff_getElem?.mpr ⟨j', hy'⟩
      rcases (mem_timedFrom bs 0 x).mp hxl with
        ⟨ix, bi, hbi, hbis, hbie, hbik, hxidx⟩
      rcases (mem_timedFrom bs 0 y).mp hyl with
        ⟨iy, bj, hbj, hbjs, hbje, hbjk, hyidx⟩
      have hlt : x.idx < y.idx :=
        pairwise_idx_lt_of_positions _ (timedFrom_pairwise bs 0) i' j' x y
          hx' hy' hij
      refine ⟨ix, iy, bi, bj, x.s, x.e, y.s, y.e, by omega, hbi, hbj,
        hbis, hbie, hbjs, hbje, hnd, ?_⟩
      rw [hm]
      simp [hbik, hbjk, hxidx, hyidx]
    · rintro ⟨i, j, bi, bj, si, ei, sj, ej, hij, hbi, hbj, hsi, hei, hsj,
        hej, hnd, hm⟩
      have hx : (⟨i, si, ei, bi.break_type⟩ : TimedBreak) ∈ timedFrom 0 bs :=
        (mem_timedFrom bs 0 _).mpr ⟨i, bi, hbi, hsi, hei, rfl, by simp⟩
      have hy : (⟨j, sj, ej, bj.break_type⟩ : TimedBreak) ∈ timedFrom 0 bs :=
        (mem_timedFrom bs 0 _).mpr ⟨j, bj, hbj, hsj, hej, rfl, by simp⟩
      rcases positions_of_pairwise_idx_lt _ (timedFrom_pairwise bs 0) _ _
          hx hy hij with ⟨i', j', hij', hx', hy'⟩
      exact ⟨i', j', _, _, hij', hx', hy', hnd, hm⟩
  refine ⟨hchar, ?_⟩
  intro m hmem
  rcases (hchar m).mp hmem with
    ⟨i, j, bi, bj, si, ei, sj, ej, hij, hbi, hbj, hsi, hei, hsj, hej, hnd, hm⟩
  have h1 : si < ei := hv bi (List.mem_iff_getElem?.mpr ⟨i, hbi⟩) si ei hsi hei
  have h2 : sj < ej := hv bj (List.mem_iff_getElem?.mpr ⟨j, hbj⟩) sj ej hsj hej
  push_neg at hnd
  have hw : 0 < minI ei ej - maxI si sj := by
    rw [minI_eq_min, maxI_eq_max, sub_pos, max_lt_iff, lt_min_iff, lt_min_iff]
    exact ⟨⟨h1, hnd.2⟩, hnd.1, h2⟩
  rw [hm]
  show 0 < ((minI ei ej - maxI si sj : Int) : ℚ) / 60
  apply div_pos _ (by norm_num)
  exact_mod_cast hw

/-- Two timed breaks, Break1 10:00–10:30 and bio 10:15–10:45, overlapping
for 15 minutes. -/
def overlapDemoBreaks : List BreakEntry :=
  [ { break_type := BreakType.break1, start_time := some 36000,
      end_time := some 37800, duration_minutes := some 30 },
    { break_type := BreakType.bio, start_time := some 36900,
      end_time := some 38700, duration_minutes := some 30 } ]

theorem overlap_detector_correct_witness :
    (0 : ℚ) <
      ({ kind1 := BreakType.break1, pos1 := 1, kind2 := BreakType.bio,
         pos2 := 2, minutes := 15 } : OverlapMsg).minutes := by
  have hv : ∀ b ∈ overlapDemoBreaks, ∀ sv ev, b.start_time = some sv →
      b.end_time = some ev → sv < ev := by
    intro b hb sv ev hs he
    simp only [overlapDemoBreaks, List.mem_cons, List.not_mem_nil, or_false]
      at hb
    rcases hb with rfl | rfl <;> simp_all <;> omega
  apply (overlap_detector_correct overlapDemoBreaks hv).2
  norm_num [check_overlapping_breaks, timedBreaks, timedFrom, pairMsgs,
    overlapDemoBreaks, minI, maxI, List.filterMap_cons, List.filterMap_nil]

end TimeTrack
